import Mathlib

/-!
# spool: a bounded pool of network connections (channel.go, pool.go)

Shallow embedding of `channelPool` and its operations, executed sequentially:
one operation runs to completion before the next one starts.

* A `net.Conn` interface value is a `Conn`; the nil interface is `Conn.nil`.
* The buffered channel `conns` is a FIFO list together with its capacity; a nil
  channel reference is `none`.
* Go's `int` counters are `Int`. Every counter moves by one per operation and is
  compared against the channel capacity only, so 64-bit wrap-around is out of
  reach and not modelled.
* The outside world (the factory and the underlying sockets) is a `World`: the
  number of factory invocations so far and the log of underlying `Close()` calls.
  The factory is a function of its invocation index, which covers every
  behaviour a zero-argument stateful closure can show in one execution.
* A call that does not return (a runtime panic, or a channel operation that can
  never proceed in a sequential execution) is `Except.error` with an `Abort`.
-/

namespace Spool

/-- An error value produced outside the package: by the factory or by the
`Close` method of an underlying connection. -/
structure ForeignError where
  msg : String
  deriving DecidableEq, Repr

/-- The `error` values the package hands to its callers. -/
inductive Error where
  /-- `ErrClosed`, pool.go line 11. -/
  | ErrClosed
  /-- `ErrMax`, pool.go line 13. -/
  | ErrMax
  /-- `errors.New("invalid capacity settings")`, channel.go line 41. -/
  | invalidCapacity
  /-- `errors.New("connection is nil. rejecting")`, channel.go line 144. -/
  | nilConn
  /-- A value built by `fmt.Errorf`; only its text survives. -/
  | errorf (text : String)
  /-- A foreign error passed through unchanged. -/
  | foreign (e : ForeignError)
  deriving DecidableEq, Repr

/-- A `net.Conn` interface value: nil, or an underlying connection identified by
`id` whose own `Close()` returns `closeErr`. -/
inductive Conn where
  | nil
  | mk (id : Nat) (closeErr : Option ForeignError)
  deriving DecidableEq, Repr

/-- Ways in which a call fails to return. -/
inductive Abort where
  /-- Runtime panic: a method call on a nil interface or a call of a nil func. -/
  | panic
  /-- A blocking channel operation that nothing in a sequential run can wake. -/
  | block
  deriving DecidableEq, Repr

/-- Observable effects on the collaborators of the pool. -/
structure World where
  /-- Number of times the factory has been invoked. -/
  factoryCalls : Nat
  /-- Underlying connections on which `Close()` was called, oldest call first. -/
  closed : List Conn
  deriving DecidableEq, Repr

/-- `type ConnPool func() (net.Conn, error)`: the pair returned by the k-th
invocation (counted from 0). -/
abbrev ConnPool := Nat → Conn × Option ForeignError

/-- A buffered `chan net.Conn`: queued values (oldest first) and `cap`. -/
structure Chan where
  buf : List Conn
  cap : Nat
  deriving DecidableEq, Repr

/-- `type channelPool struct`, channel.go lines 12-28 (the mutex carries no data). -/
structure channelPool where
  conns : Option Chan
  connPool : Option ConnPool
  hadCreatedPool : Int
  maxPoolNum : Int
  minPoolNum : Int
  checkTotal : Int
  activeNum : Int

/-- Modelled from the spec: the lease type built by `wrapConn`, whose source file
is not part of the sources at hand. Spec 3: a lease "carries no state of its own
beyond a reference to its Pool and the wrapped connection"; the pool reference is
the pool the operations are applied to. -/
structure Lease where
  conn : Conn
  deriving DecidableEq, Repr

/-- Modelled from the spec: `wrapConn`, which "wraps" the connection "in a Lease"
(spec 4.2, Acquire step 2). -/
def channelPool.wrapConn (_c : channelPool) (conn : Conn) : Lease := ⟨conn⟩

/-- The underlying `conn.Close()`: panics on the nil interface, otherwise is
logged and returns the connection's own result. -/
def Conn.Close (conn : Conn) (w : World) : Except Abort (Option ForeignError × World) :=
  match conn with
  | .nil => .error .panic
  | .mk _ closeErr => .ok (closeErr, { w with closed := w.closed ++ [conn] })

/-- `getConns`, channel.go lines 99-104. -/
def channelPool.getConns (c : channelPool) : Option Chan := c.conns

/-- `for conn := range conns { conn.Close() }` on a closed channel, channel.go
lines 178-180: every queued value is received in order and closed. -/
def closeAll : List Conn → World → Except Abort World
  | [], w => .ok w
  | conn :: rest, w =>
    match conn.Close w with
    | .error a => .error a
    | .ok (_, w1) => closeAll rest w1

/-- `Close`, channel.go lines 168-181. -/
def channelPool.Close (c : channelPool) (w : World) : Except Abort (channelPool × World) :=
  let conns := c.conns
  let c1 : channelPool := { c with conns := none, connPool := none }
  match conns with
  | none => .ok (c1, w)
  | some ch =>
    match closeAll ch.buf w with
    | .error a => .error a
    | .ok w1 => .ok (c1, w1)

/-- `Len`, channel.go line 183; `len` of a nil channel is 0. -/
def channelPool.Len (c : channelPool) : Nat :=
  match c.getConns with
  | none => 0
  | some ch => ch.buf.length

/-- `Get`, channel.go lines 109-138. The result is `(lease, nil)` as `.ok lease`
and `(nil, err)` as `.error err`. -/
def channelPool.Get (c : channelPool) (w : World) :
    Except Abort (Except Error Lease × channelPool × World) :=
  match c.getConns with
  | none => .ok (.error .ErrClosed, c, w)
  | some conns =>
    match conns.buf with
    | conn :: rest =>
      let c1 : channelPool := { c with conns := some { conns with buf := rest } }
      if conn = Conn.nil then
        .ok (.error .ErrClosed, c1, w)
      else
        .ok (.ok (c1.wrapConn conn), { c1 with activeNum := c1.activeNum + 1 }, w)
    | [] =>
      if c.hadCreatedPool + c.minPoolNum ≤ c.maxPoolNum then
        match c.connPool with
        | none => .error .panic
        | some f =>
          let r := f w.factoryCalls
          let w1 := { w with factoryCalls := w.factoryCalls + 1 }
          match r.2 with
          | some err => .ok (.error (.foreign err), c, w1)
          | none =>
            .ok (.ok (c.wrapConn r.1),
              { c with hadCreatedPool := c.hadCreatedPool + 1, activeNum := c.activeNum + 1 }, w1)
      else
        .ok (.error .ErrMax, c, w)

/-- `put`, channel.go lines 142-166. The returned `error` is `none` for nil. -/
def channelPool.put (c : channelPool) (conn : Conn) (w : World) :
    Except Abort (Option Error × channelPool × World) :=
  if conn = Conn.nil then
    .ok (some .nilConn, c, w)
  else
    match c.conns with
    | none =>
      match conn.Close w with
      | .error a => .error a
      | .ok (e, w1) => .ok (e.map Error.foreign, c, w1)
    | some ch =>
      if ch.buf.length < ch.cap then
        .ok (none, { c with conns := some { ch with buf := ch.buf ++ [conn] },
                            activeNum := c.activeNum - 1 }, w)
      else
        match conn.Close w with
        | .error a => .error a
        | .ok (e, w1) => .ok (e.map Error.foreign, { c with activeNum := c.activeNum - 1 }, w1)

/-- The loop `for closeNum < c.hadCreatedPool { conn := <-conns; conn.Close();
closeNum += 1 }`, channel.go lines 84-88, with `n` iterations left. A receive
from a nil or empty channel waits for a sender. -/
def compressLoop : Nat → Option Chan → World → Except Abort (Option Chan × World)
  | 0, conns, w => .ok (conns, w)
  | _ + 1, none, _ => .error .block
  | n + 1, some ch, w =>
    match ch.buf with
    | [] => .error .block
    | conn :: rest =>
      match conn.Close w with
      | .error a => .error a
      | .ok (_, w1) => compressLoop n (some { ch with buf := rest }) w1

/-- One tick of `checkAndCompress`: the function literal at channel.go lines
76-94. -/
def channelPool.checkAndCompress (c : channelPool) (w : World) :
    Except Abort (channelPool × World) :=
  if c.hadCreatedPool > 0 then
    let c1 : channelPool := { c with checkTotal := c.checkTotal + 1 }
    if c1.checkTotal > 10 then
      match compressLoop c1.hadCreatedPool.toNat c1.getConns w with
      | .error a => .error a
      | .ok (conns, w1) => .ok ({ c1 with conns := conns, checkTotal := 0, hadCreatedPool := 0 }, w1)
    else
      .ok (c1, w)
  else
    .ok (c, w)

/-- The text produced by `fmt.Errorf("conn is not able to fill the pool: %s", err)`. -/
def fillErrorText (err : ForeignError) : String :=
  "conn is not able to fill the pool: " ++ err.msg

/-- The fill loop of `NewChannelPool`, channel.go lines 56-63, with `n` iterations
left. `c.conns <- conn` is a blocking send. -/
def fillLoop (connPool : Option ConnPool) :
    Nat → channelPool → World → Except Abort (Except Error channelPool × World)
  | 0, c, w => .ok (.ok c, w)
  | n + 1, c, w =>
    match connPool with
    | none => .error .panic
    | some f =>
      let r := f w.factoryCalls
      let w1 := { w with factoryCalls := w.factoryCalls + 1 }
      match r.2 with
      | some err =>
        match c.Close w1 with
        | .error a => .error a
        | .ok (_, w2) => .ok (.error (.errorf (fillErrorText err)), w2)
      | none =>
        match c.conns with
        | none => .error .block
        | some ch =>
          if ch.buf.length < ch.cap then
            fillLoop connPool n { c with conns := some { ch with buf := ch.buf ++ [r.1] } } w1
          else
            .error .block

/-- `NewChannelPool`, channel.go lines 39-68. `(pool, nil)` is `.ok pool`,
`(nil, err)` is `.error err`. The reclaimer goroutine started at line 66 is
represented by the separate operation `channelPool.checkAndCompress`. -/
def NewChannelPool (initialCap maxCap : Int) (connPool : Option ConnPool) (w : World) :
    Except Abort (Except Error channelPool × World) :=
  if initialCap < 0 ∨ maxCap ≤ 0 ∨ initialCap > maxCap then
    .ok (.error .invalidCapacity, w)
  else
    let c : channelPool :=
      { conns := some { buf := [], cap := maxCap.toNat }
        connPool := connPool
        hadCreatedPool := 0
        maxPoolNum := maxCap
        minPoolNum := initialCap
        checkTotal := 0
        activeNum := 0 }
    fillLoop connPool initialCap.toNat c w

/-- The world before anything has happened. -/
def World.fresh : World := { factoryCalls := 0, closed := [] }

/-- A factory that always succeeds, handing out connection number `k` on its
k-th invocation. -/
def dial : ConnPool := fun k => (Conn.mk k none, none)

/-- Modelled from the spec: the close action of a lease, which "calls Release on
the owning Pool rather than closing the socket directly" (spec 4.3); Release is
`channelPool.put`. -/
def Lease.Close (l : Lease) (c : channelPool) (w : World) :
    Except Abort (Option Error × channelPool × World) :=
  c.put l.conn w

/-- The calls a client or the reclaimer can make on a pool. -/
inductive Op where
  | get
  | put (conn : Conn)
  | close
  | tick
  deriving DecidableEq, Repr

/-- One call applied to the pool; the value returned to the caller is dropped. -/
def step (c : channelPool) (w : World) : Op → Except Abort (channelPool × World)
  | .get =>
    match c.Get w with
    | .error a => .error a
    | .ok (_, c1, w1) => .ok (c1, w1)
  | .put conn =>
    match c.put conn w with
    | .error a => .error a
    | .ok (_, c1, w1) => .ok (c1, w1)
  | .close => c.Close w
  | .tick => c.checkAndCompress w

/-- A sequence of calls applied one after the other. -/
def run : List Op → channelPool → World → Except Abort (channelPool × World)
  | [], c, w => .ok (c, w)
  | op :: ops, c, w =>
    match step c w op with
    | .error a => .error a
    | .ok (c1, w1) => run ops c1 w1

/-- Consecutive `Get` calls, `n` of them, with nothing in between; the results
are collected in call order. -/
def getN : Nat → channelPool → World →
    Except Abort (List (Except Error Lease) × channelPool × World)
  | 0, c, w => .ok ([], c, w)
  | n + 1, c, w =>
    match c.Get w with
    | .error a => .error a
    | .ok (r, c1, w1) =>
      match getN n c1 w1 with
      | .error a => .error a
      | .ok (rs, c2, w2) => .ok (r :: rs, c2, w2)

/-- Whether a `Get` result carries a lease. -/
def isLease : Except Error Lease → Bool
  | .ok _ => true
  | .error _ => false

/-- The pool that `NewChannelPool(2, 20, dial)` returns in the fresh world: two
idle connections, nothing leased. -/
def twoIdle : channelPool :=
  { conns := some { buf := [Conn.mk 0 none, Conn.mk 1 none], cap := 20 }
    connPool := some dial
    hadCreatedPool := 0
    maxPoolNum := 20
    minPoolNum := 2
    checkTotal := 0
    activeNum := 0 }

/-- The pool `twoIdle` after `Close()`. -/
def twoIdleClosed : channelPool :=
  { twoIdle with conns := none, connPool := none }

/-- A factory whose call number `j` (counted from 0) fails with "refused" and
whose other calls succeed like `dial`. -/
def dialFailingAt (j : Nat) : ConnPool :=
  fun k => if k = j then (Conn.nil, some ⟨"refused"⟩) else (Conn.mk k none, none)

/-- An open pool with floor 2 and ceiling 3 whose buffer is empty: both floor
connections and one overflow connection are leased out. -/
def threeLeased : channelPool :=
  { conns := some { buf := [], cap := 3 }
    connPool := some dial
    hadCreatedPool := 1
    maxPoolNum := 3
    minPoolNum := 2
    checkTotal := 0
    activeNum := 3 }

/-- The pool `threeLeased` with the factory replaced by one whose call number 3
fails. -/
def threeLeasedFailing : channelPool :=
  { threeLeased with connPool := some (dialFailingAt 3) }

/-- An open pool with floor 2 and ceiling 3 whose buffer is full while one more
connection is still leased out. -/
def fullPool : channelPool :=
  { conns := some { buf := [Conn.mk 0 none, Conn.mk 1 none, Conn.mk 2 none], cap := 3 }
    connPool := some dial
    hadCreatedPool := 2
    maxPoolNum := 3
    minPoolNum := 2
    checkTotal := 0
    activeNum := 1 }

/-- The leases of a list closed one after the other, each through `Lease.Close`. -/
def releaseAll : List Lease → channelPool → World → Except Abort (channelPool × World)
  | [], c, w => .ok (c, w)
  | l :: ls, c, w =>
    match l.Close c w with
    | .error a => .error a
    | .ok (_, c1, w1) => releaseAll ls c1 w1

/-- A pool in use: the pool, the world, and the leases handed out by `Get` and
not yet closed by their holders (oldest first). -/
structure Sys where
  pool : channelPool
  world : World
  out : List Lease

/-- What can happen to a pool in use: a client calls `Get`, the holder of the
outstanding lease number `i` closes it, or the reclaimer ticks. -/
inductive Act where
  | acquire
  | release (i : Nat)
  | tick
  deriving DecidableEq, Repr

/-- One action. A successful `Get` adds its lease to the outstanding ones; a
release removes the lease it closes. A release naming no outstanding lease does
nothing. -/
def Sys.act (s : Sys) : Act → Except Abort Sys
  | .acquire =>
    match s.pool.Get s.world with
    | .error a => .error a
    | .ok (.ok l, c, w) => .ok ⟨c, w, s.out ++ [l]⟩
    | .ok (.error _, c, w) => .ok ⟨c, w, s.out⟩
  | .release i =>
    match s.out.get? i with
    | none => .ok s
    | some l =>
      match l.Close s.pool s.world with
      | .error a => .error a
      | .ok (_, c, w) => .ok ⟨c, w, s.out.eraseIdx i⟩
  | .tick =>
    match s.pool.checkAndCompress s.world with
    | .error a => .error a
    | .ok (c, w) => .ok ⟨c, w, s.out⟩

/-- A sequence of actions applied one after the other. -/
def Sys.acts : List Act → Sys → Except Abort Sys
  | [], s => .ok s
  | a :: as, s =>
    match s.act a with
    | .error e => .error e
    | .ok s1 => Sys.acts as s1

/-- An open pool with floor 2 and ceiling 20 in which two overflow connections
were created, all four connections are idle again and ten ticks have been
counted. -/
def overflowIdle : channelPool :=
  { conns := some { buf := [Conn.mk 2 none, Conn.mk 3 none, Conn.mk 0 none, Conn.mk 1 none],
                    cap := 20 }
    connPool := some dial
    hadCreatedPool := 2
    maxPoolNum := 20
    minPoolNum := 2
    checkTotal := 10
    activeNum := 0 }

/-- The pool `overflowIdle` before any tick has been counted. -/
def overflowIdleFresh : channelPool :=
  { overflowIdle with checkTotal := 0 }

/-- The accounting invariant of a pool in use whose factory is `f`: the pool is
open with only connections in its buffer, every outstanding lease wraps a
connection, and `activeNum` is the number of outstanding leases. -/
def Sys.accounted (f : ConnPool) (s : Sys) : Prop :=
  (∃ ch, s.pool.conns = some ch ∧ ∀ x ∈ ch.buf, x ≠ Conn.nil) ∧
  s.pool.connPool = some f ∧
  (∀ l ∈ s.out, l.conn ≠ Conn.nil) ∧
  s.pool.activeNum = s.out.length

/-- The pool built by `NewChannelPool(2, 20, dial)` after three `Get` calls, the
release of the second lease and one tick: connections 0 and 2 are leased out,
connection 1 is idle again. -/
def busySys : Sys :=
  { pool :=
      { conns := some { buf := [Conn.mk 1 none], cap := 20 }
        connPool := some dial
        hadCreatedPool := 1
        maxPoolNum := 20
        minPoolNum := 2
        checkTotal := 1
        activeNum := 2 }
    world := { factoryCalls := 3, closed := [] }
    out := [⟨Conn.mk 0 none⟩, ⟨Conn.mk 2 none⟩] }

/-! ## Auxiliary facts -/

theorem closeAll_calls (l : List Conn) (w w1 : World) (h : closeAll l w = .ok w1) :
    w1.factoryCalls = w.factoryCalls := by
  induction l generalizing w with
  | nil => simp [closeAll] at h; subst h; rfl
  | cons conn rest ih =>
    cases conn with
    | nil => simp [closeAll, Conn.Close] at h
    | mk id e =>
      simp only [closeAll, Conn.Close] at h
      have hrest := ih _ h
      simpa using hrest

theorem Close_closed (c c1 : channelPool) (w w1 : World) (h : c.Close w = .ok (c1, w1)) :
    c1.conns = none ∧ w1.factoryCalls = w.factoryCalls := by
  unfold channelPool.Close at h
  cases hc : c.conns with
  | none =>
    simp only [hc] at h
    injection h with h
    injection h with h1 h2
    subst h1; subst h2
    exact ⟨rfl, rfl⟩
  | some ch =>
    simp only [hc] at h
    cases hk : closeAll ch.buf w with
    | error a => simp [hk] at h
    | ok w2 =>
      simp only [hk] at h
      injection h with h
      injection h with h1 h2
      subst h1; subst h2
      exact ⟨rfl, closeAll_calls _ _ _ hk⟩

theorem step_closed (c : channelPool) (w : World) (op : Op) (hc : c.conns = none)
    (hop : op ≠ Op.tick) :
    ∃ c1 w1, step c w op = .ok (c1, w1) ∧ c1.conns = none ∧
      w1.factoryCalls = w.factoryCalls := by
  cases op with
  | get =>
    refine ⟨c, w, ?_, hc, rfl⟩
    simp [step, channelPool.Get, channelPool.getConns, hc]
  | put conn =>
    cases conn with
    | nil =>
      refine ⟨c, w, ?_, hc, rfl⟩
      simp [step, channelPool.put]
    | mk id e =>
      refine ⟨c, { w with closed := w.closed ++ [Conn.mk id e] }, ?_, hc, rfl⟩
      simp [step, channelPool.put, hc, Conn.Close]
  | close =>
    refine ⟨{ c with conns := none, connPool := none }, w, ?_, rfl, rfl⟩
    simp [step, channelPool.Close, hc]
  | tick => exact absurd rfl hop

theorem run_closed (ops : List Op) (c : channelPool) (w : World) (hc : c.conns = none)
    (hops : ∀ op ∈ ops, op ≠ Op.tick) :
    ∃ c1 w1, run ops c w = .ok (c1, w1) ∧ c1.conns = none ∧
      w1.factoryCalls = w.factoryCalls := by
  induction ops generalizing c w with
  | nil => exact ⟨c, w, rfl, hc, rfl⟩
  | cons op ops ih =>
    obtain ⟨c1, w1, hs, hc1, hw1⟩ :=
      step_closed c w op hc (hops op (List.mem_cons_self _ _))
    obtain ⟨c2, w2, hr, hc2, hw2⟩ :=
      ih c1 w1 hc1 (fun o ho => hops o (List.mem_cons_of_mem _ ho))
    refine ⟨c2, w2, ?_, hc2, hw2.trans hw1⟩
    simp [run, hs, hr]

theorem fillLoop_not_invalid (cp : Option ConnPool) (n : Nat) (c : channelPool)
    (w w1 : World) : fillLoop cp n c w ≠ .ok (.error .invalidCapacity, w1) := by
  induction n generalizing c w with
  | zero => simp [fillLoop]
  | succ n ih =>
    unfold fillLoop
    cases cp with
    | none => simp
    | some f =>
      simp only
      split
      · split <;> simp
      · split
        · simp
        · split
          · exact ih _ _
          · simp

theorem fillLoop_all_succeed (f : ConnPool) (n : Nat) (buf : List Conn) (cap : Nat)
    (cp : Option ConnPool) (hc mx mn ct an : Int) (w : World)
    (hcap : buf.length + n ≤ cap)
    (hf : ∀ k, k < n → (f (w.factoryCalls + k)).2 = none) :
    fillLoop (some f) n ⟨some ⟨buf, cap⟩, cp, hc, mx, mn, ct, an⟩ w =
      .ok (.ok ⟨some ⟨buf ++ (List.range n).map (fun k => (f (w.factoryCalls + k)).1), cap⟩,
            cp, hc, mx, mn, ct, an⟩,
          ⟨w.factoryCalls + n, w.closed⟩) := by
  induction n generalizing buf w with
  | zero => simp [fillLoop]
  | succ n ih =>
    have h0 : (f w.factoryCalls).2 = none := by simpa using hf 0 (Nat.succ_pos n)
    have hlt : buf.length < cap := by omega
    have hrec := ih (buf ++ [(f w.factoryCalls).1]) ⟨w.factoryCalls + 1, w.closed⟩
      (by simp; omega)
      (fun k hk => by
        have hk1 := hf (k + 1) (Nat.succ_lt_succ hk)
        simpa [Nat.add_assoc, Nat.add_comm 1 k] using hk1)
    simp only [fillLoop, h0, hlt, if_true]
    rw [hrec]
    simp [List.range_succ_eq_map, List.map_map, Function.comp_def, Nat.add_assoc,
      Nat.add_comm 1]

theorem closeAll_nonnil (l : List Conn) (w : World) (hl : ∀ x ∈ l, x ≠ Conn.nil) :
    closeAll l w = .ok ⟨w.factoryCalls, w.closed ++ l⟩ := by
  induction l generalizing w with
  | nil => simp [closeAll]
  | cons conn rest ih =>
    cases conn with
    | nil => exact absurd rfl (hl Conn.nil (List.mem_cons_self _ _))
    | mk id e =>
      simp only [closeAll, Conn.Close]
      rw [ih _ (fun x hx => hl x (List.mem_cons_of_mem _ hx))]
      simp

theorem fillLoop_fails_at (f : ConnPool) (n j : Nat) (e : ForeignError) (buf : List Conn)
    (cap : Nat) (cp : Option ConnPool) (hc mx mn ct an : Int) (w : World)
    (hj : j < n) (hcap : buf.length + j ≤ cap)
    (hbuf : ∀ x ∈ buf, x ≠ Conn.nil)
    (hf : ∀ k, k < j → (f (w.factoryCalls + k)).2 = none ∧
      (f (w.factoryCalls + k)).1 ≠ Conn.nil)
    (he : (f (w.factoryCalls + j)).2 = some e) :
    fillLoop (some f) n ⟨some ⟨buf, cap⟩, cp, hc, mx, mn, ct, an⟩ w =
      .ok (.error (.errorf (fillErrorText e)),
          ⟨w.factoryCalls + j + 1,
            w.closed ++ (buf ++ (List.range j).map (fun k => (f (w.factoryCalls + k)).1))⟩) := by
  induction j generalizing n buf w with
  | zero =>
    obtain ⟨m, rfl⟩ : ∃ m, n = m + 1 := ⟨n - 1, by omega⟩
    have he0 : (f w.factoryCalls).2 = some e := by simpa using he
    simp only [fillLoop, he0, channelPool.Close]
    rw [closeAll_nonnil buf _ hbuf]
    simp
  | succ j ih =>
    obtain ⟨m, rfl⟩ : ∃ m, n = m + 1 := ⟨n - 1, by omega⟩
    have h0 := hf 0 (Nat.succ_pos j)
    simp only [Nat.add_zero] at h0
    have hlt : buf.length < cap := by omega
    have hrec := ih m (buf ++ [(f w.factoryCalls).1]) ⟨w.factoryCalls + 1, w.closed⟩
      (by omega) (by simp; omega)
      (by
        intro x hx
        rcases List.mem_append.1 hx with hx | hx
        · exact hbuf x hx
        · rw [List.mem_singleton.1 hx]; exact h0.2)
      (fun k hk => by
        have hk1 := hf (k + 1) (Nat.succ_lt_succ hk)
        simpa [Nat.add_assoc, Nat.add_comm 1 k] using hk1)
      (by simpa [Nat.add_assoc, Nat.add_comm 1 j] using he)
    simp only [fillLoop, h0.1, hlt, if_true]
    rw [hrec]
    simp [List.range_succ_eq_map, List.map_map, Function.comp_def, Nat.add_assoc,
      Nat.add_comm 1]

/-! ## The claims -/

/-- C1 (fails on the code): with floor 0 and ceiling 1 and a factory that always
succeeds, two `Get` calls on the fresh pool both hand out a connection, after
which `len(conns) + activeNum` is 2 while `maxPoolNum` is 1. -/
theorem C1_bound_exceeded_after_two_gets :
    ∃ c w, NewChannelPool 0 1 (some dial) World.fresh = .ok (.ok c, w) ∧
      ∃ c2 w2, run [Op.get, Op.get] c w = .ok (c2, w2) ∧
        c2.Len = 0 ∧ c2.activeNum = 2 ∧ c2.maxPoolNum = 1 ∧
        ¬ ((c2.Len : Int) + c2.activeNum ≤ c2.maxPoolNum) :=
  ⟨_, _, rfl, _, _, rfl, rfl, rfl, rfl, by decide⟩

/-- C2 (fails on the code): with floor 2 and ceiling 20 and a factory that always
succeeds, the first 21 `Get` calls on the fresh pool all succeed, one more than
the ceiling, and it is the 22nd that fails with `ErrMax`. -/
theorem C2_twenty_first_get_succeeds :
    ∃ c w, NewChannelPool 2 20 (some dial) World.fresh = .ok (.ok c, w) ∧
      ∃ rs c2 w2, getN 22 c w = .ok (rs, c2, w2) ∧
        rs.map isLease = List.replicate 21 true ++ [false] ∧
        rs.get? 20 = some (.ok ⟨Conn.mk 20 none⟩) ∧
        rs.get? 21 = some (.error .ErrMax) ∧
        c2.activeNum = 21 :=
  ⟨_, _, rfl, _, _, _, rfl, by decide, rfl, rfl, rfl⟩

/-- C3: once `Close()` has returned, `Len()` is 0, and after any further sequence
of `Get`, `put` and `Close` calls (all of which return) `Len()` is still 0 and
`Get()` fails with `ErrClosed`, changing nothing; the factory has not been
invoked since the `Close()`. -/
theorem C3_closed_pool_stays_closed (c c1 : channelPool) (w w1 : World)
    (hclose : c.Close w = .ok (c1, w1)) (ops : List Op)
    (hops : ∀ op ∈ ops, op ≠ Op.tick) :
    c1.Len = 0 ∧
    ∃ c2 w2, run ops c1 w1 = .ok (c2, w2) ∧ c2.Len = 0 ∧
      c2.Get w2 = .ok (.error .ErrClosed, c2, w2) ∧
      w2.factoryCalls = w1.factoryCalls := by
  obtain ⟨hc1, _⟩ := Close_closed c c1 w w1 hclose
  obtain ⟨c2, w2, hr, hc2, hw2⟩ := run_closed ops c1 w1 hc1 hops
  refine ⟨?_, c2, w2, hr, ?_, ?_, hw2⟩
  · simp [channelPool.Len, channelPool.getConns, hc1]
  · simp [channelPool.Len, channelPool.getConns, hc2]
  · simp [channelPool.Get, channelPool.getConns, hc2]

/-- Witness for C3: a pool of two idle connections is closed, then `Get`, a `put`
of a connection, a `put` of nil, `Close` and `Get` again are applied. -/
theorem C3_closed_pool_stays_closed_witness :
    twoIdle.Close ⟨2, []⟩ = .ok (twoIdleClosed, ⟨2, [Conn.mk 0 none, Conn.mk 1 none]⟩) ∧
    (twoIdleClosed.Len = 0 ∧
      ∃ c2 w2, run [Op.get, Op.put (Conn.mk 7 none), Op.put Conn.nil, Op.close, Op.get]
          twoIdleClosed ⟨2, [Conn.mk 0 none, Conn.mk 1 none]⟩ = .ok (c2, w2) ∧ c2.Len = 0 ∧
        c2.Get w2 = .ok (.error .ErrClosed, c2, w2) ∧
        w2.factoryCalls = 2) :=
  ⟨rfl, C3_closed_pool_stays_closed twoIdle twoIdleClosed ⟨2, []⟩
    ⟨2, [Conn.mk 0 none, Conn.mk 1 none]⟩ rfl
    [Op.get, Op.put (Conn.mk 7 none), Op.put Conn.nil, Op.close, Op.get] (by decide)⟩

/-- C4: `NewChannelPool` fails with the invalid-capacity error exactly when
`initialCap < 0 || maxCap <= 0 || initialCap > maxCap`; in that case it returns
that error and no pool, and the factory has not been invoked and no connection
touched (the world is unchanged). -/
theorem C4_invalid_capacity_iff (initialCap maxCap : Int) (connPool : Option ConnPool)
    (w : World) :
    ((∃ w1, NewChannelPool initialCap maxCap connPool w = .ok (.error .invalidCapacity, w1)) ↔
      (initialCap < 0 ∨ maxCap ≤ 0 ∨ initialCap > maxCap)) ∧
    ((initialCap < 0 ∨ maxCap ≤ 0 ∨ initialCap > maxCap) →
      NewChannelPool initialCap maxCap connPool w = .ok (.error .invalidCapacity, w)) := by
  have hback : (initialCap < 0 ∨ maxCap ≤ 0 ∨ initialCap > maxCap) →
      NewChannelPool initialCap maxCap connPool w = .ok (.error .invalidCapacity, w) := by
    intro h
    simp [NewChannelPool, h]
  refine ⟨⟨?_, fun h => ⟨w, hback h⟩⟩, hback⟩
  rintro ⟨w1, h⟩
  by_contra hn
  simp only [NewChannelPool, hn, if_false] at h
  exact fillLoop_not_invalid _ _ _ _ _ h

/-- Witness for C4: floor 5 and ceiling 3 give the invalid-capacity error, with
no factory call and no pool. -/
theorem C4_invalid_capacity_iff_witness :
    NewChannelPool 5 3 (some dial) World.fresh = .ok (.error .invalidCapacity, World.fresh) :=
  (C4_invalid_capacity_iff 5 3 (some dial) World.fresh).2 (by decide)

/-- C5: for a valid configuration and a factory whose first `initialCap` calls
return no error, `NewChannelPool` returns a pool, having invoked the factory
exactly `initialCap` times and closed nothing; the pool is open, its buffer holds
exactly the connections returned by those calls in call order, `Len()` equals
`initialCap`, and `hadCreatedPool`, `activeNum` and `checkTotal` are 0. -/
theorem C5_new_pool_filled (initialCap maxCap : Int) (f : ConnPool) (w : World)
    (hvalid : 0 ≤ initialCap ∧ 0 < maxCap ∧ initialCap ≤ maxCap)
    (hf : ∀ k, k < initialCap.toNat → (f (w.factoryCalls + k)).2 = none) :
    ∃ c, NewChannelPool initialCap maxCap (some f) w =
        .ok (.ok c, ⟨w.factoryCalls + initialCap.toNat, w.closed⟩) ∧
      c.conns = some ⟨(List.range initialCap.toNat).map (fun k => (f (w.factoryCalls + k)).1),
        maxCap.toNat⟩ ∧
      (c.Len : Int) = initialCap ∧
      c.hadCreatedPool = 0 ∧ c.activeNum = 0 ∧ c.checkTotal = 0 ∧
      c.minPoolNum = initialCap ∧ c.maxPoolNum = maxCap ∧ c.connPool = some f := by
  obtain ⟨h0, h1, h2⟩ := hvalid
  have hguard : ¬ (initialCap < 0 ∨ maxCap ≤ 0 ∨ initialCap > maxCap) := by omega
  have hfill := fillLoop_all_succeed f initialCap.toNat [] maxCap.toNat (some f) 0 maxCap
    initialCap 0 0 w (by simp; omega) hf
  refine ⟨⟨some ⟨(List.range initialCap.toNat).map (fun k => (f (w.factoryCalls + k)).1),
    maxCap.toNat⟩, some f, 0, maxCap, initialCap, 0, 0⟩, ?_, rfl, ?_, rfl, rfl, rfl, rfl, rfl, rfl⟩
  · simp only [NewChannelPool, hguard, if_false]
    rw [hfill]
    simp
  · simp [channelPool.Len, channelPool.getConns, Int.toNat_of_nonneg h0]

/-- Witness for C5: floor 2 and ceiling 20 with the always-succeeding factory give
a pool with `Len() == 2`. -/
theorem C5_new_pool_filled_witness :
    ∃ c, NewChannelPool 2 20 (some dial) World.fresh = .ok (.ok c, ⟨2, []⟩) ∧
      c.conns = some ⟨[Conn.mk 0 none, Conn.mk 1 none], 20⟩ ∧
      (c.Len : Int) = 2 ∧
      c.hadCreatedPool = 0 ∧ c.activeNum = 0 ∧ c.checkTotal = 0 ∧
      c.minPoolNum = 2 ∧ c.maxPoolNum = 20 ∧ c.connPool = some dial :=
  C5_new_pool_filled 2 20 dial World.fresh (by decide) (fun _ _ => rfl)

/-- C6: for a valid configuration, if the first `i - 1` factory calls of the
initial fill return connections and the `i`-th call (`1 <= i <= initialCap`)
fails with `e`, then `NewChannelPool` returns no pool but the error whose text
is "conn is not able to fill the pool: " followed by the text of `e`; the factory
has been invoked exactly `i` times, and the underlying `Close()` has been called
exactly on the `i - 1` connections created before, once each, in creation order. -/
theorem C6_fill_failure_tears_down (initialCap maxCap : Int) (f : ConnPool) (w : World)
    (i : Nat) (e : ForeignError)
    (hvalid : 0 ≤ initialCap ∧ 0 < maxCap ∧ initialCap ≤ maxCap)
    (hi : 1 ≤ i ∧ (i : Int) ≤ initialCap)
    (hbefore : ∀ k, k < i - 1 →
      (f (w.factoryCalls + k)).2 = none ∧ (f (w.factoryCalls + k)).1 ≠ Conn.nil)
    (hfail : (f (w.factoryCalls + (i - 1))).2 = some e) :
    NewChannelPool initialCap maxCap (some f) w =
      .ok (.error (.errorf ("conn is not able to fill the pool: " ++ e.msg)),
        ⟨w.factoryCalls + i,
          w.closed ++ (List.range (i - 1)).map (fun k => (f (w.factoryCalls + k)).1)⟩) := by
  obtain ⟨h0, h1, h2⟩ := hvalid
  obtain ⟨hi1, hi2⟩ := hi
  have hguard : ¬ (initialCap < 0 ∨ maxCap ≤ 0 ∨ initialCap > maxCap) := by omega
  have hfill := fillLoop_fails_at f initialCap.toNat (i - 1) e [] maxCap.toNat (some f) 0
    maxCap initialCap 0 0 w (by omega) (by simp; omega) (by simp) hbefore hfail
  simp only [NewChannelPool, hguard, if_false]
  rw [hfill]
  have hii : w.factoryCalls + (i - 1) + 1 = w.factoryCalls + i := by omega
  simp [fillErrorText, hii]

/-- Witness for C6: floor 3, ceiling 5 and a factory whose third call fails. -/
theorem C6_fill_failure_tears_down_witness :
    NewChannelPool 3 5 (some (dialFailingAt 2)) World.fresh =
      .ok (.error (.errorf ("conn is not able to fill the pool: " ++ "refused")),
        ⟨3, [Conn.mk 0 none, Conn.mk 1 none]⟩) :=
  C6_fill_failure_tears_down 3 5 (dialFailingAt 2) World.fresh 3 ⟨"refused"⟩
    (by decide) (by decide)
    (by
      intro k hk
      have hk2 : k = 0 ∨ k = 1 := by omega
      rcases hk2 with rfl | rfl <;> exact ⟨rfl, by decide⟩)
    rfl

/-- C7: on an open pool whose buffer is non-empty with a (non-nil) connection at
its head, `Get()` returns a lease on that head connection without touching the
factory or any socket; the buffer loses exactly its head, `activeNum` grows by
exactly 1, and `hadCreatedPool`, `checkTotal` and the configuration are
unchanged. -/
theorem C7_get_takes_oldest_idle (c : channelPool) (w : World) (ch : Chan) (conn : Conn)
    (rest : List Conn) (hopen : c.conns = some ch) (hbuf : ch.buf = conn :: rest)
    (hconn : conn ≠ Conn.nil) :
    ∃ c1, c.Get w = .ok (.ok ⟨conn⟩, c1, w) ∧
      c1.conns = some ⟨rest, ch.cap⟩ ∧
      c1.Len + 1 = c.Len ∧
      c1.activeNum = c.activeNum + 1 ∧
      c1.hadCreatedPool = c.hadCreatedPool ∧ c1.checkTotal = c.checkTotal ∧
      c1.minPoolNum = c.minPoolNum ∧ c1.maxPoolNum = c.maxPoolNum ∧
      c1.connPool = c.connPool := by
  refine ⟨{ c with conns := some ⟨rest, ch.cap⟩, activeNum := c.activeNum + 1 },
    ?_, rfl, ?_, rfl, rfl, rfl, rfl, rfl, rfl⟩
  · simp [channelPool.Get, channelPool.getConns, hopen, hbuf, hconn, channelPool.wrapConn]
  · simp [channelPool.Len, channelPool.getConns, hopen, hbuf]

/-- Witness for C7: `Get()` on the pool with idle connections 0 and 1 returns
connection 0 and leaves connection 1 idle. -/
theorem C7_get_takes_oldest_idle_witness :
    ∃ c1, twoIdle.Get ⟨2, []⟩ = .ok (.ok ⟨Conn.mk 0 none⟩, c1, ⟨2, []⟩) ∧
      c1.conns = some ⟨[Conn.mk 1 none], 20⟩ ∧
      c1.Len + 1 = twoIdle.Len ∧
      c1.activeNum = twoIdle.activeNum + 1 ∧
      c1.hadCreatedPool = twoIdle.hadCreatedPool ∧ c1.checkTotal = twoIdle.checkTotal ∧
      c1.minPoolNum = twoIdle.minPoolNum ∧ c1.maxPoolNum = twoIdle.maxPoolNum ∧
      c1.connPool = twoIdle.connPool :=
  C7_get_takes_oldest_idle twoIdle ⟨2, []⟩ ⟨[Conn.mk 0 none, Conn.mk 1 none], 20⟩
    (Conn.mk 0 none) [Conn.mk 1 none] rfl rfl (by decide)

/-- C8: on an open pool with an empty buffer, `Get()` fails with `ErrMax` exactly
when `hadCreatedPool + minPoolNum > maxPoolNum`, and then neither the pool nor
the world (factory calls, sockets) changes. Otherwise, with a factory in place,
the factory is invoked exactly once; when that call returns no error, `Get()`
returns a lease on the new connection, `hadCreatedPool` and `activeNum` are each
larger by exactly 1 and the buffer is still the same empty buffer. -/
theorem C8_get_on_empty_buffer (c : channelPool) (w : World) (ch : Chan)
    (hopen : c.conns = some ch) (hempty : ch.buf = []) :
    ((∃ c1 w1, c.Get w = .ok (.error .ErrMax, c1, w1)) ↔
      c.hadCreatedPool + c.minPoolNum > c.maxPoolNum) ∧
    (c.hadCreatedPool + c.minPoolNum > c.maxPoolNum →
      c.Get w = .ok (.error .ErrMax, c, w)) ∧
    (∀ f, c.connPool = some f → ¬ (c.hadCreatedPool + c.minPoolNum > c.maxPoolNum) →
      ∃ r c1, c.Get w = .ok (r, c1, ⟨w.factoryCalls + 1, w.closed⟩) ∧
        ((f w.factoryCalls).2 = none →
          r = .ok ⟨(f w.factoryCalls).1⟩ ∧
          c1.hadCreatedPool = c.hadCreatedPool + 1 ∧
          c1.activeNum = c.activeNum + 1 ∧
          c1.conns = some ch ∧ c1.Len = 0 ∧
          c1.checkTotal = c.checkTotal ∧ c1.minPoolNum = c.minPoolNum ∧
          c1.maxPoolNum = c.maxPoolNum)) := by
  have hmax : c.hadCreatedPool + c.minPoolNum > c.maxPoolNum →
      c.Get w = .ok (.error .ErrMax, c, w) := by
    intro h
    have hn : ¬ (c.hadCreatedPool + c.minPoolNum ≤ c.maxPoolNum) := by omega
    simp [channelPool.Get, channelPool.getConns, hopen, hempty, hn]
  refine ⟨⟨?_, fun h => ⟨c, w, hmax h⟩⟩, hmax, ?_⟩
  · rintro ⟨c1, w1, h⟩
    by_contra hn
    have hroom : c.hadCreatedPool + c.minPoolNum ≤ c.maxPoolNum := by omega
    simp only [channelPool.Get, channelPool.getConns, hopen, hempty, hroom, if_true] at h
    cases hcp : c.connPool with
    | none => simp [hcp] at h
    | some f =>
      simp only [hcp] at h
      cases hr : (f w.factoryCalls).2 with
      | none => simp [hr] at h
      | some err => simp [hr] at h
  · intro f hcp hn
    have hroom : c.hadCreatedPool + c.minPoolNum ≤ c.maxPoolNum := by omega
    cases hr : (f w.factoryCalls).2 with
    | some err =>
      refine ⟨.error (.foreign err), c, ?_, ?_⟩
      · simp [channelPool.Get, channelPool.getConns, hopen, hempty, hroom, hcp, hr]
      · intro h; cases h
    | none =>
      refine ⟨.ok ⟨(f w.factoryCalls).1⟩,
        { c with hadCreatedPool := c.hadCreatedPool + 1, activeNum := c.activeNum + 1 }, ?_, ?_⟩
      · simp [channelPool.Get, channelPool.getConns, hopen, hempty, hroom, hcp, hr,
          channelPool.wrapConn]
      · intro _
        refine ⟨rfl, rfl, rfl, hopen, ?_, rfl, rfl, rfl⟩
        simp [channelPool.Len, channelPool.getConns, hopen, hempty]

/-- Witness for C8: with floor 2, ceiling 3, one overflow connection created and
an empty buffer there is still room (1 + 2 <= 3), so `Get()` does not fail with
`ErrMax` but creates connection 3. -/
theorem C8_get_on_empty_buffer_witness :
    ∃ r c1, threeLeased.Get ⟨3, []⟩ = .ok (r, c1, ⟨3 + 1, []⟩) ∧
      ((dial 3).2 = none →
        r = .ok ⟨(dial 3).1⟩ ∧
        c1.hadCreatedPool = threeLeased.hadCreatedPool + 1 ∧
        c1.activeNum = threeLeased.activeNum + 1 ∧
        c1.conns = some ⟨[], 3⟩ ∧ c1.Len = 0 ∧
        c1.checkTotal = threeLeased.checkTotal ∧ c1.minPoolNum = threeLeased.minPoolNum ∧
        c1.maxPoolNum = threeLeased.maxPoolNum) :=
  (C8_get_on_empty_buffer threeLeased ⟨3, []⟩ ⟨[], 3⟩ rfl rfl).2.2 dial rfl (by decide)

/-- C9: on an open pool with an empty buffer and room for growth, if the factory
call made by `Get()` fails with `e`, then `Get()` returns `e` itself and the pool
is exactly the pool before the call; the only effect is the one factory
invocation. -/
theorem C9_factory_failure_in_get (c : channelPool) (w : World) (ch : Chan) (f : ConnPool)
    (e : ForeignError) (hopen : c.conns = some ch) (hempty : ch.buf = [])
    (hroom : c.hadCreatedPool + c.minPoolNum ≤ c.maxPoolNum)
    (hcp : c.connPool = some f) (hfail : (f w.factoryCalls).2 = some e) :
    c.Get w = .ok (.error (.foreign e), c, ⟨w.factoryCalls + 1, w.closed⟩) := by
  simp [channelPool.Get, channelPool.getConns, hopen, hempty, hroom, hcp, hfail]

/-- Witness for C9: the factory of `threeLeasedFailing` refuses its call number 3. -/
theorem C9_factory_failure_in_get_witness :
    threeLeasedFailing.Get ⟨3, []⟩ =
      .ok (.error (.foreign ⟨"refused"⟩), threeLeasedFailing, ⟨3 + 1, []⟩) :=
  C9_factory_failure_in_get threeLeasedFailing ⟨3, []⟩ ⟨[], 3⟩ (dialFailingAt 3) ⟨"refused"⟩
    rfl rfl (by decide) rfl rfl

/-- C10: let the channel of the pool, when there is one, have capacity
`maxPoolNum` and hold at most that many values, as every channel made by
`NewChannelPool` does. For a non-nil connection, `put` returns, and it calls the
underlying `Close()` on the connection (once, and on nothing else) exactly when
the pool is closed or the buffer already holds `maxPoolNum` connections, leaving
the buffer as it was; otherwise nothing is closed and the connection is appended
at the tail of the buffer, `Len()` growing by exactly 1. On an open pool
`activeNum` drops by exactly 1 in both cases; `hadCreatedPool` is unchanged and
the factory is not invoked. -/
theorem C10_put_stores_or_closes (c : channelPool) (conn : Conn) (w : World)
    (hconn : conn ≠ Conn.nil)
    (hcap : ∀ ch, c.conns = some ch → (ch.cap : Int) = c.maxPoolNum ∧ ch.buf.length ≤ ch.cap) :
    ∃ e c1 w1, c.put conn w = .ok (e, c1, w1) ∧
      (w1.closed = w.closed ++ [conn] ↔ (c.conns = none ∨ (c.Len : Int) = c.maxPoolNum)) ∧
      ((c.conns = none ∨ (c.Len : Int) = c.maxPoolNum) → c1.conns = c.conns) ∧
      (¬ (c.conns = none ∨ (c.Len : Int) = c.maxPoolNum) →
        w1.closed = w.closed ∧
        (∃ ch, c.conns = some ch ∧ c1.conns = some ⟨ch.buf ++ [conn], ch.cap⟩) ∧
        c1.Len = c.Len + 1) ∧
      (c.conns ≠ none → c1.activeNum = c.activeNum - 1) ∧
      c1.hadCreatedPool = c.hadCreatedPool ∧
      w1.factoryCalls = w.factoryCalls := by
  have hne : ∀ l : List Conn, l ≠ l ++ [conn] := by
    intro l h
    have hlen := congrArg List.length h
    simp at hlen
  cases conn with
  | nil => exact absurd rfl hconn
  | mk id ce =>
    cases hc : c.conns with
    | none =>
      refine ⟨ce.map Error.foreign, c, ⟨w.factoryCalls, w.closed ++ [Conn.mk id ce]⟩, ?_, ?_, ?_,
        ?_, ?_, rfl, rfl⟩
      · simp [channelPool.put, hc, Conn.Close]
      · simp
      · intro _; exact hc
      · intro h; exact absurd (Or.inl rfl) h
      · intro h; exact absurd rfl h
    | some ch =>
      obtain ⟨hcapEq, hlen⟩ := hcap ch hc
      have hLen : c.Len = ch.buf.length := by
        simp [channelPool.Len, channelPool.getConns, hc]
      by_cases hfull : ch.buf.length < ch.cap
      · have hnot : ¬ ((c.Len : Int) = c.maxPoolNum) := by
          rw [hLen, ← hcapEq]; omega
        refine ⟨none,
          { c with conns := some ⟨ch.buf ++ [Conn.mk id ce], ch.cap⟩, activeNum := c.activeNum - 1 },
          w, ?_, ?_, ?_, ?_, ?_, rfl, rfl⟩
        · simp [channelPool.put, hc, hfull]
        · constructor
          · intro h; exact absurd h (hne _)
          · intro h
            rcases h with h | h
            · cases h
            · exact absurd h hnot
        · intro h
          rcases h with h | h
          · cases h
          · exact absurd h hnot
        · intro _
          refine ⟨rfl, ⟨ch, rfl, rfl⟩, ?_⟩
          rw [hLen]
          simp [channelPool.Len, channelPool.getConns]
        · intro _; rfl
      · have hyes : (c.Len : Int) = c.maxPoolNum := by
          rw [hLen, ← hcapEq]; omega
        refine ⟨ce.map Error.foreign, { c with activeNum := c.activeNum - 1 },
          ⟨w.factoryCalls, w.closed ++ [Conn.mk id ce]⟩, ?_, ?_, ?_, ?_, ?_, rfl, rfl⟩
        · simp [channelPool.put, hc, hfull, Conn.Close]
        · simp [hyes]
        · intro _; exact hc.symm ▸ rfl
        · intro h; exact absurd (Or.inr hyes) h
        · intro _; rfl

/-- Witness for C10: connection 3 is returned to a pool whose buffer already holds
3 = `maxPoolNum` connections; it is closed and `activeNum` drops from 1 to 0. -/
theorem C10_put_stores_or_closes_witness :
    ∃ e c1 w1, fullPool.put (Conn.mk 3 none) ⟨4, []⟩ = .ok (e, c1, w1) ∧
      (w1.closed = [] ++ [Conn.mk 3 none] ↔
        (fullPool.conns = none ∨ (fullPool.Len : Int) = fullPool.maxPoolNum)) ∧
      ((fullPool.conns = none ∨ (fullPool.Len : Int) = fullPool.maxPoolNum) →
        c1.conns = fullPool.conns) ∧
      (¬ (fullPool.conns = none ∨ (fullPool.Len : Int) = fullPool.maxPoolNum) →
        w1.closed = [] ∧
        (∃ ch, fullPool.conns = some ch ∧ c1.conns = some ⟨ch.buf ++ [Conn.mk 3 none], ch.cap⟩) ∧
        c1.Len = fullPool.Len + 1) ∧
      (fullPool.conns ≠ none → c1.activeNum = fullPool.activeNum - 1) ∧
      c1.hadCreatedPool = fullPool.hadCreatedPool ∧
      w1.factoryCalls = 4 :=
  C10_put_stores_or_closes fullPool (Conn.mk 3 none) ⟨4, []⟩ (by decide)
    (by
      intro ch hch
      have hch2 : ch = ⟨[Conn.mk 0 none, Conn.mk 1 none, Conn.mk 2 none], 3⟩ := by
        simpa [fullPool] using hch.symm
      subst hch2
      exact ⟨rfl, by decide⟩)

/-! ## Further auxiliary facts -/

theorem compressLoop_takes (n : Nat) (buf : List Conn) (cap : Nat) (w : World)
    (hn : n ≤ buf.length) (hnil : ∀ x ∈ buf.take n, x ≠ Conn.nil) :
    compressLoop n (some ⟨buf, cap⟩) w =
      .ok (some ⟨buf.drop n, cap⟩, ⟨w.factoryCalls, w.closed ++ buf.take n⟩) := by
  induction n generalizing buf w with
  | zero => simp [compressLoop]
  | succ n ih =>
    cases buf with
    | nil => simp at hn
    | cons conn rest =>
      cases conn with
      | nil => exact absurd rfl (hnil Conn.nil (by simp))
      | mk id e =>
        have hrec := ih rest ⟨w.factoryCalls, w.closed ++ [Conn.mk id e]⟩
          (by simpa using hn)
          (fun x hx => hnil x (by simp [List.take_succ_cons, hx]))
        simp only [compressLoop, Conn.Close]
        rw [hrec]
        simp

theorem run_append (a b : List Op) (c : channelPool) (w : World) :
    run (a ++ b) c w =
      match run a c w with
      | .error e => .error e
      | .ok (c1, w1) => run b c1 w1 := by
  induction a generalizing c w with
  | nil => simp [run]
  | cons op ops ih =>
    simp only [List.cons_append, run]
    cases step c w op with
    | error e => rfl
    | ok r => exact ih r.1 r.2

theorem ticks_below_threshold (j : Nat) (c : channelPool) (w : World)
    (hpos : 0 < c.hadCreatedPool) (hj : c.checkTotal + j ≤ 10) :
    run (List.replicate j Op.tick) c w =
      .ok ({ c with checkTotal := c.checkTotal + j }, w) := by
  induction j generalizing c with
  | zero => simp [run]
  | succ j ih =>
    have hno : ¬ (c.checkTotal + 1 > 10) := by push_cast at hj; omega
    have hrec := ih { c with checkTotal := c.checkTotal + 1 } hpos
      (by push_cast at hj; show c.checkTotal + 1 + (j : Int) ≤ 10; omega)
    simp only [List.replicate_succ, run, step, channelPool.checkAndCompress, hpos, if_true, hno,
      if_false]
    rw [hrec]
    simp only [Nat.cast_add, Nat.cast_one]
    have harith : c.checkTotal + 1 + (j : Int) = c.checkTotal + ((j : Int) + 1) := by omega
    rw [harith]

theorem put_with_room (c : channelPool) (conn : Conn) (w : World) (ch : Chan)
    (hopen : c.conns = some ch) (hconn : conn ≠ Conn.nil) (hroom : ch.buf.length < ch.cap) :
    c.put conn w =
      .ok (none, { c with conns := some ⟨ch.buf ++ [conn], ch.cap⟩,
                          activeNum := c.activeNum - 1 }, w) := by
  simp [channelPool.put, hopen, hconn, hroom]

theorem put_when_full (c : channelPool) (conn : Conn) (w : World) (ch : Chan)
    (hopen : c.conns = some ch) (hconn : conn ≠ Conn.nil) (hfull : ¬ ch.buf.length < ch.cap) :
    ∃ e, c.put conn w =
      .ok (e, { c with activeNum := c.activeNum - 1 },
        ⟨w.factoryCalls, w.closed ++ [conn]⟩) := by
  cases conn with
  | nil => exact absurd rfl hconn
  | mk id ce =>
    exact ⟨ce.map Error.foreign, by simp [channelPool.put, hopen, hfull, Conn.Close]⟩

/-! ## The claims, continued -/

/-- C11 (fails on the code): a connection whose own `Close()` succeeds is put back
into a pool that has been closed, and into an open pool whose buffer is full; in
both cases `put` closes the connection and returns the nil error. -/
theorem C11_put_returns_nil_when_closed_or_full :
    twoIdleClosed.put (Conn.mk 0 none) ⟨2, []⟩ =
      .ok (none, twoIdleClosed, ⟨2, [Conn.mk 0 none]⟩) ∧
    fullPool.put (Conn.mk 3 none) ⟨4, []⟩ =
      .ok (none, { fullPool with activeNum := 0 }, ⟨4, [Conn.mk 3 none]⟩) :=
  ⟨rfl, rfl⟩

/-- C13: whatever the pool, open or closed, `put(nil)` returns the error
"connection is nil. rejecting" and leaves the pool (buffer, `activeNum`,
`hadCreatedPool`, `checkTotal`, channel reference) and the world (no `Close()`
call, no factory call) exactly as they were. -/
theorem C13_put_nil_rejected (c : channelPool) (w : World) :
    c.put Conn.nil w = .ok (some Error.nilConn, c, w) := by
  simp [channelPool.put]

/-- C14: `Close()` on an open pool whose buffer holds connections calls the
underlying `Close()` on each of them once, oldest first, and on nothing else;
afterwards the channel reference and the factory reference are nil, and
`minPoolNum`, `maxPoolNum`, `hadCreatedPool`, `activeNum` and `checkTotal` are
what they were. -/
theorem C14_close_drains_idle (c : channelPool) (w : World) (ch : Chan)
    (hopen : c.conns = some ch) (hnil : ∀ x ∈ ch.buf, x ≠ Conn.nil) :
    ∃ c1, c.Close w = .ok (c1, ⟨w.factoryCalls, w.closed ++ ch.buf⟩) ∧
      c1.conns = none ∧ c1.connPool = none ∧ c1.Len = 0 ∧
      c1.minPoolNum = c.minPoolNum ∧ c1.maxPoolNum = c.maxPoolNum ∧
      c1.hadCreatedPool = c.hadCreatedPool ∧ c1.activeNum = c.activeNum ∧
      c1.checkTotal = c.checkTotal := by
  refine ⟨{ c with conns := none, connPool := none }, ?_, rfl, rfl, rfl, rfl, rfl, rfl, rfl, rfl⟩
  simp [channelPool.Close, hopen, closeAll_nonnil ch.buf w hnil]

/-- Witness for C14: a pool with one connection leased out and three idle is
closed; the three idle ones are closed, the leased one is not. -/
theorem C14_close_drains_idle_witness :
    ∃ c1, fullPool.Close ⟨4, []⟩ =
        .ok (c1, ⟨4, [] ++ [Conn.mk 0 none, Conn.mk 1 none, Conn.mk 2 none]⟩) ∧
      c1.conns = none ∧ c1.connPool = none ∧ c1.Len = 0 ∧
      c1.minPoolNum = fullPool.minPoolNum ∧ c1.maxPoolNum = fullPool.maxPoolNum ∧
      c1.hadCreatedPool = fullPool.hadCreatedPool ∧ c1.activeNum = fullPool.activeNum ∧
      c1.checkTotal = fullPool.checkTotal :=
  C14_close_drains_idle fullPool ⟨4, []⟩ ⟨[Conn.mk 0 none, Conn.mk 1 none, Conn.mk 2 none], 3⟩
    rfl (by decide)

/-- C15: if `Close()` returns, leaving pool `c1` and world `w1`, then a second
`Close()` returns as well and leaves exactly `c1` and `w1`: the pool is the same
and no further `Close()` reaches any connection. -/
theorem C15_close_idempotent (c c1 : channelPool) (w w1 : World)
    (hclose : c.Close w = .ok (c1, w1)) :
    c1.Close w1 = .ok (c1, w1) := by
  have hc1 : c1 = { c with conns := none, connPool := none } := by
    unfold channelPool.Close at hclose
    cases hc : c.conns with
    | none =>
      simp only [hc] at hclose
      injection hclose with h
      injection h with h1 _
      exact h1.symm
    | some ch =>
      simp only [hc] at hclose
      cases hk : closeAll ch.buf w with
      | error a => simp [hk] at hclose
      | ok w2 =>
        simp only [hk] at hclose
        injection hclose with h
        injection h with h1 _
        exact h1.symm
  subst hc1
  rfl

/-- Witness for C15: the pool with two idle connections is closed twice. -/
theorem C15_close_idempotent_witness :
    twoIdleClosed.Close ⟨2, [Conn.mk 0 none, Conn.mk 1 none]⟩ =
      .ok (twoIdleClosed, ⟨2, [Conn.mk 0 none, Conn.mk 1 none]⟩) :=
  C15_close_idempotent twoIdle twoIdleClosed ⟨2, []⟩ ⟨2, [Conn.mk 0 none, Conn.mk 1 none]⟩ rfl

/-- C16: take an open pool with `hadCreatedPool = n > 0` whose buffer holds at
least `n` values, the `n` oldest being connections. If `checkTotal >= 10`, one
tick of the reclaimer calls the underlying `Close()` on exactly those `n` oldest
idle connections, in order, and on nothing else; the remaining idle connections
stay in order (`Len()` drops by exactly `n`), `checkTotal` and `hadCreatedPool`
become 0 and every other field, `activeNum` included, is unchanged. If instead
`checkTotal = 0` and only ticks occur, each of the first ten ticks merely counts
(after `j <= 10` ticks `checkTotal = j`, nothing else changed, nothing closed)
and the reclaim happens on the eleventh. -/
theorem C16_reclaim_on_eleventh_tick (c : channelPool) (w : World) (ch : Chan) (n : Nat)
    (hopen : c.conns = some ch) (hn : 0 < n) (hover : c.hadCreatedPool = n)
    (hidle : n ≤ ch.buf.length) (hnil : ∀ x ∈ ch.buf.take n, x ≠ Conn.nil) :
    (10 ≤ c.checkTotal →
      ∃ c1, c.checkAndCompress w = .ok (c1, ⟨w.factoryCalls, w.closed ++ ch.buf.take n⟩) ∧
        c1 = { c with conns := some ⟨ch.buf.drop n, ch.cap⟩, checkTotal := 0, hadCreatedPool := 0 } ∧
        c1.Len + n = c.Len ∧ c1.activeNum = c.activeNum) ∧
    (c.checkTotal = 0 →
      (∀ j, j ≤ 10 → run (List.replicate j Op.tick) c w = .ok ({ c with checkTotal := j }, w)) ∧
      run (List.replicate 11 Op.tick) c w =
        .ok ({ c with conns := some ⟨ch.buf.drop n, ch.cap⟩, checkTotal := 0, hadCreatedPool := 0 },
          ⟨w.factoryCalls, w.closed ++ ch.buf.take n⟩)) := by
  have hpos : 0 < c.hadCreatedPool := by rw [hover]; exact_mod_cast hn
  have hloop := compressLoop_takes n ch.buf ch.cap w hidle hnil
  have hreclaim : ∀ c0 : channelPool, c0.conns = some ch → c0.hadCreatedPool = n →
      10 ≤ c0.checkTotal →
      c0.checkAndCompress w =
        .ok ({ c0 with conns := some ⟨ch.buf.drop n, ch.cap⟩, checkTotal := 0,
                       hadCreatedPool := 0 },
          ⟨w.factoryCalls, w.closed ++ ch.buf.take n⟩) := by
    intro c0 h0 h1 h2
    have hp : 0 < c0.hadCreatedPool := by rw [h1]; exact_mod_cast hn
    have hgt : c0.checkTotal + 1 > 10 := by omega
    have hto : c0.hadCreatedPool.toNat = n := by rw [h1]; simp
    simp only [channelPool.checkAndCompress, hp, if_true, hgt, channelPool.getConns, h0, hto]
    rw [hloop]
  refine ⟨?_, ?_⟩
  · intro h10
    refine ⟨_, hreclaim c hopen hover h10, rfl, ?_, rfl⟩
    simp only [channelPool.Len, channelPool.getConns, hopen, List.length_drop]
    omega
  · intro h0
    refine ⟨?_, ?_⟩
    · intro j hj
      have hticks := ticks_below_threshold j c w hpos (by rw [h0]; omega)
      rw [hticks, h0]
      simp
    · have hten := ticks_below_threshold 10 c w hpos (by rw [h0]; decide)
      have hsplit : List.replicate 11 Op.tick = List.replicate 10 Op.tick ++ [Op.tick] := by
        decide
      rw [hsplit, run_append, hten]
      simp only [run, step]
      rw [hreclaim { c with checkTotal := c.checkTotal + (10 : Nat) } hopen hover
        (by show 10 ≤ c.checkTotal + ((10 : Nat) : Int); rw [h0]; decide)]

/-- Witness for C16: floor 2, two overflow connections, all four idle, ten ticks
already counted; the next tick closes the two oldest idle connections. -/
theorem C16_reclaim_on_eleventh_tick_witness :
    ∃ c1, overflowIdle.checkAndCompress ⟨4, []⟩ =
        .ok (c1, ⟨4, [] ++ [Conn.mk 2 none, Conn.mk 3 none]⟩) ∧
      c1 = { overflowIdle with conns := some ⟨[Conn.mk 0 none, Conn.mk 1 none], 20⟩,
                               checkTotal := 0, hadCreatedPool := 0 } ∧
      c1.Len + 2 = overflowIdle.Len ∧ c1.activeNum = overflowIdle.activeNum :=
  (C16_reclaim_on_eleventh_tick overflowIdle ⟨4, []⟩
    ⟨[Conn.mk 2 none, Conn.mk 3 none, Conn.mk 0 none, Conn.mk 1 none], 20⟩ 2
    rfl (by decide) rfl (by decide) (by decide)).1 (by decide)

/-- C18: in a pool state with `hadCreatedPool = 0`, or with `checkTotal < 10`
before the tick, one tick of the reclaimer returns without any `Close()` or
factory call and leaves the channel and its buffer, `hadCreatedPool`,
`activeNum` and the configuration unchanged; `checkTotal` is larger by exactly 1
when `hadCreatedPool > 0` and unchanged when `hadCreatedPool = 0`. -/
theorem C18_tick_without_reclaim (c : channelPool) (w : World)
    (h : c.hadCreatedPool = 0 ∨ c.checkTotal < 10) :
    ∃ c1, c.checkAndCompress w = .ok (c1, w) ∧
      c1.conns = c.conns ∧ c1.hadCreatedPool = c.hadCreatedPool ∧
      c1.activeNum = c.activeNum ∧
      (0 < c.hadCreatedPool → c1.checkTotal = c.checkTotal + 1) ∧
      (c.hadCreatedPool = 0 → c1.checkTotal = c.checkTotal) ∧
      c1.minPoolNum = c.minPoolNum ∧ c1.maxPoolNum = c.maxPoolNum ∧
      c1.connPool = c.connPool := by
  by_cases hpos : 0 < c.hadCreatedPool
  · have hlt : c.checkTotal < 10 := by
      rcases h with h | h
      · omega
      · exact h
    have hno : ¬ (c.checkTotal + 1 > 10) := by omega
    refine ⟨{ c with checkTotal := c.checkTotal + 1 }, ?_, rfl, rfl, rfl, fun _ => rfl, ?_,
      rfl, rfl, rfl⟩
    · simp [channelPool.checkAndCompress, hpos, hno]
    · intro h0; omega
  · refine ⟨c, ?_, rfl, rfl, rfl, fun hp => absurd hp hpos, fun _ => rfl, rfl, rfl, rfl⟩
    simp [channelPool.checkAndCompress, hpos]

/-- Witness for C18: two overflow connections and no tick counted yet; the tick
only counts. -/
theorem C18_tick_without_reclaim_witness :
    ∃ c1, overflowIdleFresh.checkAndCompress ⟨4, []⟩ = .ok (c1, ⟨4, []⟩) ∧
      c1.conns = overflowIdleFresh.conns ∧
      c1.hadCreatedPool = overflowIdleFresh.hadCreatedPool ∧
      c1.activeNum = overflowIdleFresh.activeNum ∧
      (0 < overflowIdleFresh.hadCreatedPool → c1.checkTotal = overflowIdleFresh.checkTotal + 1) ∧
      (overflowIdleFresh.hadCreatedPool = 0 → c1.checkTotal = overflowIdleFresh.checkTotal) ∧
      c1.minPoolNum = overflowIdleFresh.minPoolNum ∧
      c1.maxPoolNum = overflowIdleFresh.maxPoolNum ∧
      c1.connPool = overflowIdleFresh.connPool :=
  C18_tick_without_reclaim overflowIdleFresh ⟨4, []⟩ (Or.inr (by decide))

/-- C17 (fails on the model of the lease): `Get()` on the pool with idle
connections 0 and 1 hands out a lease on connection 0. Closing that lease once
returns the connection to the buffer; closing it a second time inserts the same
connection into the buffer once more (`Len()` goes from 2 to 3) and decrements
`activeNum` again (from 0 to -1). -/
theorem C17_second_close_releases_again :
    twoIdle.Get ⟨2, []⟩ =
      .ok (.ok ⟨Conn.mk 0 none⟩,
        { twoIdle with conns := some ⟨[Conn.mk 1 none], 20⟩, activeNum := 1 }, ⟨2, []⟩) ∧
    Lease.Close ⟨Conn.mk 0 none⟩
        { twoIdle with conns := some ⟨[Conn.mk 1 none], 20⟩, activeNum := 1 } ⟨2, []⟩ =
      .ok (none,
        { twoIdle with conns := some ⟨[Conn.mk 1 none, Conn.mk 0 none], 20⟩, activeNum := 0 },
        ⟨2, []⟩) ∧
    Lease.Close ⟨Conn.mk 0 none⟩
        { twoIdle with conns := some ⟨[Conn.mk 1 none, Conn.mk 0 none], 20⟩, activeNum := 0 }
        ⟨2, []⟩ =
      .ok (none,
        { twoIdle with conns := some ⟨[Conn.mk 1 none, Conn.mk 0 none, Conn.mk 0 none], 20⟩,
                       activeNum := -1 },
        ⟨2, []⟩) :=
  ⟨rfl, rfl, rfl⟩

/-- C17 as amended: release is not exactly-once. On an open pool, closing a lease
on a connection and then closing the same lease a second time both return, and
`activeNum` ends up 2 lower, one for each close; when the buffer had room for two
more values, the same connection has been appended to it twice and no
underlying `Close()` or factory call was made. -/
theorem C17_double_close_double_release (c : channelPool) (w : World) (ch : Chan) (l : Lease)
    (hopen : c.conns = some ch) (hl : l.conn ≠ Conn.nil) :
    ∃ e1 c1 w1 e2 c2 w2, l.Close c w = .ok (e1, c1, w1) ∧ l.Close c1 w1 = .ok (e2, c2, w2) ∧
      c1.activeNum = c.activeNum - 1 ∧ c2.activeNum = c.activeNum - 2 ∧
      (ch.buf.length + 2 ≤ ch.cap →
        c2.conns = some ⟨ch.buf ++ [l.conn, l.conn], ch.cap⟩ ∧ c2.Len = c.Len + 2 ∧ w2 = w) := by
  obtain ⟨conn⟩ := l
  have hLen : c.Len = ch.buf.length := by simp [channelPool.Len, channelPool.getConns, hopen]
  by_cases h1 : ch.buf.length < ch.cap
  · have hfirst := put_with_room c conn w ch hopen hl h1
    by_cases h2 : ch.buf.length + 1 < ch.cap
    · have hsecond := put_with_room
        { c with conns := some ⟨ch.buf ++ [conn], ch.cap⟩, activeNum := c.activeNum - 1 }
        conn w ⟨ch.buf ++ [conn], ch.cap⟩ rfl hl (by simpa using h2)
      refine ⟨_, _, _, _, _, _, hfirst, hsecond, rfl, ?_, ?_⟩
      · show c.activeNum - 1 - 1 = c.activeNum - 2
        omega
      · intro _
        refine ⟨by simp, ?_, rfl⟩
        rw [hLen]
        simp [channelPool.Len, channelPool.getConns]
    · have hsecond := put_when_full
        { c with conns := some ⟨ch.buf ++ [conn], ch.cap⟩, activeNum := c.activeNum - 1 }
        conn w ⟨ch.buf ++ [conn], ch.cap⟩ rfl hl (by simpa using h2)
      obtain ⟨e2, hsecond⟩ := hsecond
      refine ⟨_, _, _, _, _, _, hfirst, hsecond, rfl, ?_, ?_⟩
      · show c.activeNum - 1 - 1 = c.activeNum - 2
        omega
      · intro h; omega
  · obtain ⟨e1, hfirst⟩ := put_when_full c conn w ch hopen hl h1
    obtain ⟨e2, hsecond⟩ := put_when_full { c with activeNum := c.activeNum - 1 } conn
      ⟨w.factoryCalls, w.closed ++ [conn]⟩ ch hopen hl h1
    refine ⟨_, _, _, _, _, _, hfirst, hsecond, rfl, ?_, ?_⟩
    · show c.activeNum - 1 - 1 = c.activeNum - 2
      omega
    · intro h; omega

/-- Witness for C17 as amended: the lease on connection 0 taken from the pool
with idle connections 0 and 1 is closed twice. -/
theorem C17_double_close_double_release_witness :
    ∃ e1 c1 w1 e2 c2 w2,
      Lease.Close ⟨Conn.mk 0 none⟩
        { twoIdle with conns := some ⟨[Conn.mk 1 none], 20⟩, activeNum := 1 } ⟨2, []⟩ =
        .ok (e1, c1, w1) ∧
      Lease.Close ⟨Conn.mk 0 none⟩ c1 w1 = .ok (e2, c2, w2) ∧
      c1.activeNum = 1 - 1 ∧ c2.activeNum = 1 - 2 ∧
      ([Conn.mk 1 none].length + 2 ≤ 20 →
        c2.conns = some ⟨[Conn.mk 1 none] ++ [Conn.mk 0 none, Conn.mk 0 none], 20⟩ ∧
        c2.Len = 1 + 2 ∧ w2 = ⟨2, []⟩) :=
  C17_double_close_double_release
    { twoIdle with conns := some ⟨[Conn.mk 1 none], 20⟩, activeNum := 1 } ⟨2, []⟩
    ⟨[Conn.mk 1 none], 20⟩ ⟨Conn.mk 0 none⟩ rfl (by decide)

/-! ## Runs of `Get` and of releases -/

theorem getN_add (a b : Nat) (c : channelPool) (w : World) :
    getN (a + b) c w =
      match getN a c w with
      | .error e => .error e
      | .ok (rs, c1, w1) =>
        match getN b c1 w1 with
        | .error e => .error e
        | .ok (rs2, c2, w2) => .ok (rs ++ rs2, c2, w2) := by
  induction a generalizing c w with
  | zero =>
    simp only [Nat.zero_add, getN]
    cases getN b c w with
    | error e => rfl
    | ok r => simp
  | succ a ih =>
    have hab : a + 1 + b = (a + b) + 1 := by omega
    rw [hab]
    simp only [getN]
    cases hg : c.Get w with
    | error e => rfl
    | ok r =>
      obtain ⟨r0, c1, w1⟩ := r
      simp only
      rw [ih c1 w1]
      cases getN a c1 w1 with
      | error e => rfl
      | ok q =>
        obtain ⟨rs, c2, w2⟩ := q
        simp only
        cases getN b c2 w2 with
        | error e => rfl
        | ok q2 => simp

theorem getN_from_idle (k : Nat) (buf : List Conn) (cap : Nat) (cp : Option ConnPool)
    (hc mx mn ct an : Int) (w : World)
    (hk : k ≤ buf.length) (hnil : ∀ x ∈ buf.take k, x ≠ Conn.nil) :
    getN k ⟨some ⟨buf, cap⟩, cp, hc, mx, mn, ct, an⟩ w =
      .ok ((buf.take k).map (fun x => .ok ⟨x⟩),
        ⟨some ⟨buf.drop k, cap⟩, cp, hc, mx, mn, ct, an + k⟩, w) := by
  induction k generalizing buf an with
  | zero => simp [getN]
  | succ k ih =>
    cases buf with
    | nil => simp at hk
    | cons x rest =>
      have hx : x ≠ Conn.nil := hnil x (by simp)
      have hrec := ih rest (an + 1) (by simpa using hk)
        (fun y hy => hnil y (by simp [List.take_succ_cons, hy]))
      simp only [getN, channelPool.Get, channelPool.getConns, hx, if_false,
        channelPool.wrapConn]
      rw [hrec]
      simp [Int.add_assoc, Int.add_comm 1]

theorem getN_grow (m : Nat) (f : ConnPool) (cap : Nat) (hc mx mn ct an : Int) (w : World)
    (hroom : hc + mn + m ≤ mx + 1)
    (hf : ∀ i, i < m → (f (w.factoryCalls + i)).2 = none) :
    getN m ⟨some ⟨[], cap⟩, some f, hc, mx, mn, ct, an⟩ w =
      .ok ((List.range m).map (fun i => .ok ⟨(f (w.factoryCalls + i)).1⟩),
        ⟨some ⟨[], cap⟩, some f, hc + m, mx, mn, ct, an + m⟩,
        ⟨w.factoryCalls + m, w.closed⟩) := by
  induction m generalizing hc an w with
  | zero => simp [getN]
  | succ m ih =>
    have h0 : (f w.factoryCalls).2 = none := by simpa using hf 0 (Nat.succ_pos m)
    have hle : hc + mn ≤ mx := by push_cast at hroom; omega
    have hrec := ih (hc + 1) (an + 1) ⟨w.factoryCalls + 1, w.closed⟩
      (by push_cast at hroom ⊢; omega)
      (fun i hi => by
        have hi1 := hf (i + 1) (Nat.succ_lt_succ hi)
        simpa [Nat.add_assoc, Nat.add_comm 1 i] using hi1)
    simp only [getN, channelPool.Get, channelPool.getConns, hle, if_true, h0,
      channelPool.wrapConn]
    rw [hrec]
    simp [List.range_succ_eq_map, List.map_map, Function.comp_def, Nat.add_assoc,
      Nat.add_comm 1, Int.add_assoc, Int.add_comm 1]

theorem releaseAll_with_room (ls : List Lease) (buf : List Conn) (cap : Nat)
    (cp : Option ConnPool) (hc mx mn ct an : Int) (w : World)
    (hroom : buf.length + ls.length ≤ cap) (hnil : ∀ l ∈ ls, l.conn ≠ Conn.nil) :
    releaseAll ls ⟨some ⟨buf, cap⟩, cp, hc, mx, mn, ct, an⟩ w =
      .ok (⟨some ⟨buf ++ ls.map Lease.conn, cap⟩, cp, hc, mx, mn, ct, an - ls.length⟩, w) := by
  induction ls generalizing buf an with
  | nil => simp [releaseAll]
  | cons l ls ih =>
    have hl : l.conn ≠ Conn.nil := hnil l (List.mem_cons_self _ _)
    have hlt : buf.length < cap := by simp at hroom; omega
    have hrec := ih (buf ++ [l.conn]) (an - 1) (by simp at hroom ⊢; omega)
      (fun x hx => hnil x (List.mem_cons_of_mem _ hx))
    simp only [releaseAll, Lease.Close, channelPool.put, hl, if_false, hlt, if_true]
    rw [hrec]
    simp
    omega

/-- C12: for a valid configuration, a factory that always returns a connection,
and `k <= maxCap`: on the freshly built pool, `k` consecutive `Get()` calls all
return a lease, and closing each of these `k` leases once, in any order, returns
every time, closes no connection and invokes no factory, and leaves
`Len() == max(initialCap, k)` and `activeNum == 0`. -/
theorem C12_get_then_release_all (initialCap maxCap : Int) (f : ConnPool) (w : World)
    (k : Nat) (hvalid : 0 ≤ initialCap ∧ 0 < maxCap ∧ initialCap ≤ maxCap)
    (hf : ∀ i, (f i).2 = none ∧ (f i).1 ≠ Conn.nil) (hk : (k : Int) ≤ maxCap) :
    ∃ c w0, NewChannelPool initialCap maxCap (some f) w = .ok (.ok c, w0) ∧
      ∃ ls c1 w1, getN k c w0 = .ok (ls.map Except.ok, c1, w1) ∧ ls.length = k ∧
        w1.closed = w.closed ∧
        ∀ ls2 : List Lease, ls2.Perm ls →
          ∃ c2, releaseAll ls2 c1 w1 = .ok (c2, w1) ∧
            (c2.Len : Int) = max initialCap (k : Int) ∧ c2.activeNum = 0 := by
  obtain ⟨h0, h1, h2⟩ := hvalid
  have hguard : ¬ (initialCap < 0 ∨ maxCap ≤ 0 ∨ initialCap > maxCap) := by omega
  have hfill := fillLoop_all_succeed f initialCap.toNat [] maxCap.toNat (some f) 0 maxCap
    initialCap 0 0 w (by simp; omega) (fun i _ => (hf _).1)
  have hnew : NewChannelPool initialCap maxCap (some f) w =
      .ok (.ok ⟨some ⟨(List.range initialCap.toNat).map (fun j => (f (w.factoryCalls + j)).1),
            maxCap.toNat⟩, some f, 0, maxCap, initialCap, 0, 0⟩,
          ⟨w.factoryCalls + initialCap.toNat, w.closed⟩) := by
    simp only [NewChannelPool, hguard, if_false]
    rw [hfill]
    simp
  generalize hidle : (List.range initialCap.toNat).map (fun j => (f (w.factoryCalls + j)).1)
    = idle at hnew
  have hidleLen : idle.length = initialCap.toNat := by rw [← hidle]; simp
  have hidleNil : ∀ x ∈ idle, x ≠ Conn.nil := by
    intro x hx
    rw [← hidle] at hx
    obtain ⟨j, _, rfl⟩ := List.mem_map.1 hx
    exact (hf _).2
  refine ⟨_, _, hnew, ?_⟩
  by_cases hkF : k ≤ initialCap.toNat
  · have hget := getN_from_idle k idle maxCap.toNat (some f) 0 maxCap initialCap 0 0
      ⟨w.factoryCalls + initialCap.toNat, w.closed⟩ (by omega)
      (fun x hx => hidleNil x (List.mem_of_mem_take hx))
    refine ⟨(idle.take k).map Lease.mk,
      ⟨some ⟨idle.drop k, maxCap.toNat⟩, some f, 0, maxCap, initialCap, 0, 0 + (k : Int)⟩,
      ⟨w.factoryCalls + initialCap.toNat, w.closed⟩, ?_, ?_, rfl, ?_⟩
    · rw [hget]; simp [List.map_map, Function.comp_def]
    · simp; omega
    · intro ls2 hperm
      have hlen : ls2.length = k := by
        rw [hperm.length_eq]; simp; omega
      have hrel := releaseAll_with_room ls2 (idle.drop k) maxCap.toNat (some f) 0 maxCap
        initialCap 0 (0 + (k : Int)) ⟨w.factoryCalls + initialCap.toNat, w.closed⟩
        (by simp; omega)
        (fun l hl => by
          have hmem := hperm.mem_iff.1 hl
          obtain ⟨x, hx, rfl⟩ := List.mem_map.1 hmem
          exact hidleNil x (List.mem_of_mem_take hx))
      refine ⟨_, hrel, ?_, ?_⟩
      · simp [channelPool.Len, channelPool.getConns, hlen, hidleLen]
        omega
      · simp [hlen]
  · have hkF2 : initialCap.toNat < k := by omega
    obtain ⟨m, hm⟩ : ∃ m, k = initialCap.toNat + m := ⟨k - initialCap.toNat, by omega⟩
    have hget1 := getN_from_idle initialCap.toNat idle maxCap.toNat (some f) 0 maxCap
      initialCap 0 0 ⟨w.factoryCalls + initialCap.toNat, w.closed⟩ (by omega)
      (fun x hx => hidleNil x (List.mem_of_mem_take hx))
    rw [List.take_of_length_le (by omega), List.drop_eq_nil_of_le (by omega)] at hget1
    have hget2 := getN_grow m f maxCap.toNat 0 maxCap initialCap 0
      (0 + (initialCap.toNat : Int)) ⟨w.factoryCalls + initialCap.toNat, w.closed⟩
      (by omega) (fun i _ => (hf _).1)
    refine ⟨idle.map Lease.mk ++
        (List.range m).map (fun i => Lease.mk (f (w.factoryCalls + initialCap.toNat + i)).1),
      ⟨some ⟨[], maxCap.toNat⟩, some f, 0 + (m : Int), maxCap, initialCap, 0,
        0 + (initialCap.toNat : Int) + (m : Int)⟩,
      ⟨w.factoryCalls + initialCap.toNat + m, w.closed⟩, ?_, ?_, rfl, ?_⟩
    · rw [hm, getN_add, hget1]
      simp only
      rw [hget2]
      simp [List.map_map, Function.comp_def]
    · simp; omega
    · intro ls2 hperm
      have hlen : ls2.length = k := by
        rw [hperm.length_eq]; simp; omega
      have hrel := releaseAll_with_room ls2 [] maxCap.toNat (some f) (0 + (m : Int)) maxCap
        initialCap 0 (0 + (initialCap.toNat : Int) + (m : Int))
        ⟨w.factoryCalls + initialCap.toNat + m, w.closed⟩
        (by simp; omega)
        (fun l hl => by
          have hmem := hperm.mem_iff.1 hl
          rcases List.mem_append.1 hmem with hmem | hmem
          · obtain ⟨x, hx, rfl⟩ := List.mem_map.1 hmem
            exact hidleNil x hx
          · obtain ⟨i, _, rfl⟩ := List.mem_map.1 hmem
            exact (hf _).2)
      refine ⟨_, hrel, ?_, ?_⟩
      · simp [channelPool.Len, channelPool.getConns, hlen]
        omega
      · simp [hlen]; omega

/-- Witness for C12: floor 2, ceiling 20 and `k = 4`. -/
theorem C12_get_then_release_all_witness :
    ∃ c w0, NewChannelPool 2 20 (some dial) World.fresh = .ok (.ok c, w0) ∧
      ∃ ls c1 w1, getN 4 c w0 = .ok (ls.map Except.ok, c1, w1) ∧ ls.length = 4 ∧
        w1.closed = World.fresh.closed ∧
        ∀ ls2 : List Lease, ls2.Perm ls →
          ∃ c2, releaseAll ls2 c1 w1 = .ok (c2, w1) ∧
            (c2.Len : Int) = max 2 ((4 : Nat) : Int) ∧ c2.activeNum = 0 :=
  C12_get_then_release_all 2 20 dial World.fresh 4 (by decide)
    (fun _ => ⟨rfl, Conn.noConfusion⟩) (by decide)

/-! ## The accounting invariant -/

theorem fillLoop_ok_accounted (f : ConnPool)
    (hf : ∀ i, (f i).2 = none → (f i).1 ≠ Conn.nil) (n : Nat) (c c1 : channelPool)
    (w w1 : World) (h : fillLoop (some f) n c w = .ok (.ok c1, w1))
    (hc : ∃ ch, c.conns = some ch ∧ ∀ x ∈ ch.buf, x ≠ Conn.nil) :
    (∃ ch, c1.conns = some ch ∧ ∀ x ∈ ch.buf, x ≠ Conn.nil) ∧
      c1.connPool = c.connPool ∧ c1.activeNum = c.activeNum := by
  induction n generalizing c w with
  | zero =>
    simp only [fillLoop] at h
    injection h with h
    injection h with h1 _
    injection h1 with h1
    subst h1
    exact ⟨hc, rfl, rfl⟩
  | succ n ih =>
    obtain ⟨ch, hch, hnil⟩ := hc
    simp only [fillLoop] at h
    cases hr : (f w.factoryCalls).2 with
    | some err =>
      simp only [hr] at h
      cases hcl : c.Close ⟨w.factoryCalls + 1, w.closed⟩ with
      | error a => simp [hcl] at h
      | ok r => simp [hcl] at h
    | none =>
      simp only [hr, hch] at h
      by_cases hlt : ch.buf.length < ch.cap
      · simp only [hlt, if_true] at h
        have hrec := ih _ _ h ⟨⟨ch.buf ++ [(f w.factoryCalls).1], ch.cap⟩, rfl, by
          intro x hx
          rcases List.mem_append.1 hx with hx | hx
          · exact hnil x hx
          · rw [List.mem_singleton.1 hx]; exact hf _ hr⟩
        exact hrec
      · simp [hlt] at h

theorem compressLoop_keeps_suffix (n : Nat) (ch : Chan) (w w1 : World) (conns : Option Chan)
    (h : compressLoop n (some ch) w = .ok (conns, w1)) :
    ∃ ch1, conns = some ch1 ∧ ∀ x ∈ ch1.buf, x ∈ ch.buf := by
  induction n generalizing ch w with
  | zero =>
    simp only [compressLoop] at h
    injection h with h
    injection h with h1 _
    exact ⟨ch, h1.symm, fun x hx => hx⟩
  | succ n ih =>
    simp only [compressLoop] at h
    cases hb : ch.buf with
    | nil => simp [hb] at h
    | cons conn rest =>
      simp only [hb] at h
      cases hcl : conn.Close w with
      | error a => simp [hcl] at h
      | ok r =>
        simp only [hcl] at h
        obtain ⟨ch1, h1, h2⟩ := ih _ _ h
        exact ⟨ch1, h1, fun x hx => List.mem_cons_of_mem _ (h2 x hx)⟩

theorem get_failure_keeps_activeNum (c c1 : channelPool) (w w1 : World) (e : Error)
    (h : c.Get w = .ok (.error e, c1, w1)) : c1.activeNum = c.activeNum := by
  unfold channelPool.Get at h
  cases hc : c.getConns with
  | none =>
    simp only [hc] at h
    injection h with h
    injection h with _ h
    injection h with h _
    rw [← h]
  | some ch =>
    simp only [hc] at h
    cases hb : ch.buf with
    | cons conn rest =>
      simp only [hb] at h
      by_cases hn : conn = Conn.nil
      · simp only [hn, if_true] at h
        injection h with h
        injection h with _ h
        injection h with h _
        rw [← h]
      · simp [hn] at h
    | nil =>
      simp only [hb] at h
      by_cases hroom : c.hadCreatedPool + c.minPoolNum ≤ c.maxPoolNum
      · simp only [hroom, if_true] at h
        cases hcp : c.connPool with
        | none => simp [hcp] at h
        | some f =>
          simp only [hcp] at h
          cases hr : (f w.factoryCalls).2 with
          | none => simp [hr] at h
          | some err =>
            simp only [hr] at h
            injection h with h
            injection h with _ h
            injection h with h _
            rw [← h]
      · simp only [hroom, if_false] at h
        injection h with h
        injection h with _ h
        injection h with h _
        rw [← h]

theorem act_accounted (f : ConnPool) (hf : ∀ i, (f i).2 = none → (f i).1 ≠ Conn.nil)
    (s s1 : Sys) (a : Act) (hs : s.accounted f) (h : s.act a = .ok s1) :
    s1.accounted f := by
  obtain ⟨⟨ch, hch, hbuf⟩, hcp, hout, hact⟩ := hs
  cases a with
  | acquire =>
    simp only [Sys.act, channelPool.Get, channelPool.getConns, hch] at h
    cases hb : ch.buf with
    | cons conn rest =>
      have hconn : conn ≠ Conn.nil := hbuf conn (by rw [hb]; exact List.mem_cons_self _ _)
      simp only [hb, hconn, if_false] at h
      injection h with h
      subst h
      refine ⟨⟨⟨rest, ch.cap⟩, rfl, fun x hx => hbuf x (by rw [hb]; exact List.mem_cons_of_mem _ hx)⟩,
        hcp, ?_, ?_⟩
      · intro l hl
        rcases List.mem_append.1 hl with hl | hl
        · exact hout l hl
        · rw [List.mem_singleton.1 hl]; exact hconn
      · show s.pool.activeNum + 1 = ((s.out ++ [_]).length : Int)
        rw [hact]; simp
    | nil =>
      simp only [hb] at h
      by_cases hroom : s.pool.hadCreatedPool + s.pool.minPoolNum ≤ s.pool.maxPoolNum
      · simp only [hroom, if_true, hcp] at h
        cases hr : (f s.world.factoryCalls).2 with
        | some err =>
          simp only [hr] at h
          injection h with h
          subst h
          exact ⟨⟨ch, hch, hbuf⟩, hcp, hout, hact⟩
        | none =>
          simp only [hr] at h
          injection h with h
          subst h
          refine ⟨⟨ch, rfl, hbuf⟩, rfl, ?_, ?_⟩
          · intro l hl
            rcases List.mem_append.1 hl with hl | hl
            · exact hout l hl
            · rw [List.mem_singleton.1 hl]; exact hf _ hr
          · show s.pool.activeNum + 1 = ((s.out ++ [_]).length : Int)
            rw [hact]; simp
      · simp only [hroom, if_false] at h
        injection h with h
        subst h
        exact ⟨⟨ch, hch, hbuf⟩, hcp, hout, hact⟩
  | release i =>
    simp only [Sys.act] at h
    cases hg : s.out.get? i with
    | none =>
      simp only [hg] at h
      injection h with h
      subst h
      exact ⟨⟨ch, hch, hbuf⟩, hcp, hout, hact⟩
    | some l =>
      simp only [hg] at h
      have hmem : l ∈ s.out := List.get?_mem hg
      have hl : l.conn ≠ Conn.nil := hout l hmem
      have hi : i < s.out.length := by
        by_contra hge
        rw [List.get?_eq_none.2 (by omega)] at hg
        cases hg
      have hlen : ((s.out.eraseIdx i).length : Int) = s.pool.activeNum - 1 := by
        rw [List.length_eraseIdx_of_lt hi, hact]
        omega
      have hout1 : ∀ x ∈ s.out.eraseIdx i, x.conn ≠ Conn.nil :=
        fun x hx => hout x (List.mem_of_mem_eraseIdx hx)
      by_cases hroom : ch.buf.length < ch.cap
      · rw [show l.Close s.pool s.world = s.pool.put l.conn s.world from rfl,
          put_with_room s.pool l.conn s.world ch hch hl hroom] at h
        simp only at h
        injection h with h
        subst h
        refine ⟨⟨⟨ch.buf ++ [l.conn], ch.cap⟩, rfl, ?_⟩, hcp, hout1, hlen.symm⟩
        intro x hx
        rcases List.mem_append.1 hx with hx | hx
        · exact hbuf x hx
        · rw [List.mem_singleton.1 hx]; exact hl
      · obtain ⟨e, hput⟩ := put_when_full s.pool l.conn s.world ch hch hl hroom
        rw [show l.Close s.pool s.world = s.pool.put l.conn s.world from rfl, hput] at h
        simp only at h
        injection h with h
        subst h
        exact ⟨⟨ch, hch, hbuf⟩, hcp, hout1, hlen.symm⟩
  | tick =>
    simp only [Sys.act, channelPool.checkAndCompress] at h
    by_cases hpos : s.pool.hadCreatedPool > 0
    · simp only [hpos, if_true] at h
      by_cases hgt : s.pool.checkTotal + 1 > 10
      · simp only [hgt, if_true, channelPool.getConns, hch] at h
        cases hloop : compressLoop s.pool.hadCreatedPool.toNat (some ch) s.world with
        | error e => simp [hloop] at h
        | ok r =>
          obtain ⟨conns, w1⟩ := r
          simp only [hloop] at h
          injection h with h
          subst h
          obtain ⟨ch1, h1, h2⟩ := compressLoop_keeps_suffix _ _ _ _ _ hloop
          exact ⟨⟨ch1, h1, fun x hx => hbuf x (h2 x hx)⟩, hcp, hout, hact⟩
      · simp only [hgt, if_false] at h
        injection h with h
        subst h
        exact ⟨⟨ch, hch, hbuf⟩, hcp, hout, hact⟩
    · simp only [hpos, if_false] at h
      injection h with h
      subst h
      exact ⟨⟨ch, hch, hbuf⟩, hcp, hout, hact⟩

theorem acts_accounted (f : ConnPool) (hf : ∀ i, (f i).2 = none → (f i).1 ≠ Conn.nil)
    (as : List Act) (s s1 : Sys) (hs : s.accounted f) (h : Sys.acts as s = .ok s1) :
    s1.accounted f := by
  induction as generalizing s with
  | nil =>
    simp only [Sys.acts] at h
    injection h with h
    subst h
    exact hs
  | cons a as ih =>
    simp only [Sys.acts] at h
    cases ha : s.act a with
    | error e => simp [ha] at h
    | ok s2 =>
      simp only [ha] at h
      exact ih s2 (act_accounted f hf s s2 a hs ha) h

/-! ## The claims, concluded -/

/-- C19 (fails on the code): with floor 0 and ceiling 1 and a factory that always
succeeds, two `Get` calls and the release of both leases lead to a state with no
lease outstanding (`activeNum = 0`) in which the buffer holds 1 connection while
`hadCreatedPool` is 2; ten ticks later the state is the same but for
`checkTotal = 10`, and the eleventh tick, which reclaims, never returns: it waits
on the empty channel although no lease is outstanding. -/
theorem C19_reclaim_blocks_without_leases :
    ∃ c w, NewChannelPool 0 1 (some dial) World.fresh = .ok (.ok c, w) ∧
      ∃ s, Sys.acts ([Act.acquire, Act.acquire, Act.release 0, Act.release 0] ++
            List.replicate 10 Act.tick) ⟨c, w, []⟩ = .ok s ∧
        s.out = [] ∧ s.pool.activeNum = 0 ∧ s.pool.Len = 1 ∧ s.pool.hadCreatedPool = 2 ∧
        s.pool.checkTotal = 10 ∧ s.world.closed = [Conn.mk 1 none] ∧
        s.pool.checkAndCompress s.world = .error Abort.block ∧
        Sys.acts ([Act.acquire, Act.acquire, Act.release 0, Act.release 0] ++
            List.replicate 11 Act.tick) ⟨c, w, []⟩ = .error Abort.block :=
  ⟨_, _, rfl, _, rfl, rfl, rfl, rfl, rfl, rfl, rfl, rfl, rfl⟩

/-- C20: let the factory return, at every call, an error or a connection. In
every state reached from the pool built by `NewChannelPool` through `Get` calls,
releases of outstanding leases (a released lease is no longer outstanding) and
ticks of the reclaimer that return, the pool is open and `activeNum` equals the
number of leases handed out by `Get` and not yet released; in particular
`activeNum >= 0`. Moreover a `Get` that fails, on any pool, leaves `activeNum`
as it was. -/
theorem C20_lease_accounting (initialCap maxCap : Int) (f : ConnPool) (w w0 : World)
    (c : channelPool) (as : List Act) (s : Sys)
    (hf : ∀ i, (f i).2 = none → (f i).1 ≠ Conn.nil)
    (hnew : NewChannelPool initialCap maxCap (some f) w = .ok (.ok c, w0))
    (hrun : Sys.acts as ⟨c, w0, []⟩ = .ok s) :
    s.pool.conns ≠ none ∧ s.pool.activeNum = s.out.length ∧ 0 ≤ s.pool.activeNum ∧
    (∀ (p p1 : channelPool) (v v1 : World) (e : Error),
      p.Get v = .ok (.error e, p1, v1) → p1.activeNum = p.activeNum) := by
  have hinit : Sys.accounted f ⟨c, w0, []⟩ := by
    unfold NewChannelPool at hnew
    by_cases hguard : initialCap < 0 ∨ maxCap ≤ 0 ∨ initialCap > maxCap
    · simp [hguard] at hnew
    · simp only [hguard, if_false] at hnew
      obtain ⟨h1, h2, h3⟩ := fillLoop_ok_accounted f hf _ _ _ _ _ hnew
        ⟨⟨[], maxCap.toNat⟩, rfl, by simp⟩
      exact ⟨h1, h2, by simp, by simpa using h3⟩
  obtain ⟨⟨ch, hch, _⟩, _, _, hact⟩ := acts_accounted f hf as _ s hinit hrun
  refine ⟨by rw [hch]; simp, hact, by rw [hact]; exact Int.natCast_nonneg _, ?_⟩
  intro p p1 v v1 e hget
  exact get_failure_keeps_activeNum p p1 v v1 e hget

/-- Witness for C20: floor 2, ceiling 20; three `Get` calls, the second lease
released, one tick. Two leases are outstanding and `activeNum` is 2. -/
theorem C20_lease_accounting_witness :
    busySys.pool.conns ≠ none ∧ busySys.pool.activeNum = busySys.out.length ∧
    0 ≤ busySys.pool.activeNum ∧
    (∀ (p p1 : channelPool) (v v1 : World) (e : Error),
      p.Get v = .ok (.error e, p1, v1) → p1.activeNum = p.activeNum) :=
  C20_lease_accounting 2 20 dial World.fresh ⟨2, []⟩ twoIdle
    [Act.acquire, Act.acquire, Act.acquire, Act.release 1, Act.tick] busySys
    (fun _ _ => Conn.noConfusion) rfl rfl

end Spool
